import Mathlib

/-!
Shallow embedding of the simple-todo-app task service.

Data model and operations follow the TypeScript source:
  - the zod schemas (Task, CreateTaskInput, UpdateTaskInput, ToggleTaskInput,
    DeleteTaskInput) from the schema module;
  - createTask from the drizzle-backed handler;
  - toggleTask from the drizzle-backed handler;
  - updateTask from the handler actually present in src
    (src/server/src/handlers/update_task.ts): a placeholder that resolves
    with a Task fabricated from the input, never reads or writes the store,
    and never raises a not-found error;
  - deleteTask and getTasks are modelled from the spec, as the repository has
    no source for those handlers, only their tests.

Timestamps are naturals (milliseconds); the current time is passed explicitly
to each operation. The relational store is a list of rows plus the next
auto-generated id. JavaScript `undefined` vs `null` for optional fields is the
usual tri-state `Option (Option String)`: `none` = field omitted (undefined),
`some none` = explicit null, `some (some s)` = a string value.
-/

namespace Todo

/-- Wire shape of a task row, mirroring `taskSchema` in the schema module. -/
structure Task where
  id : Nat
  title : String
  description : Option String
  completed : Bool
  created_at : Nat
  updated_at : Nat
deriving Repr, DecidableEq

/-- `createTaskInputSchema`: required title, optional nullable description. -/
structure CreateTaskInput where
  title : String
  description : Option (Option String) := none
deriving Repr, DecidableEq

/-- `updateTaskInputSchema`: required id, each other field optional
(`none` = omitted); description may additionally be explicitly null. -/
structure UpdateTaskInput where
  id : Nat
  title : Option String := none
  description : Option (Option String) := none
  completed : Option Bool := none
deriving Repr, DecidableEq

/-- `toggleTaskInputSchema`: required id and required target completed flag. -/
structure ToggleTaskInput where
  id : Nat
  completed : Bool
deriving Repr, DecidableEq

/-- `deleteTaskInputSchema`: just the id. -/
structure DeleteTaskInput where
  id : Nat
deriving Repr, DecidableEq

/-- Delete returns a structured `{ success: boolean }` outcome. -/
structure DeleteResult where
  success : Bool
deriving Repr, DecidableEq

/-- The relational store: the task rows in insertion order, plus the next
auto-generated id. -/
structure Store where
  rows : List Task
  nextId : Nat
deriving Repr, DecidableEq

/-- The empty store. -/
def Store.empty : Store := ⟨[], 0⟩

/-- Validation performed by `createTaskInputSchema`:
`z.string().min(1)` on the title; description is unconstrained. -/
def createTaskInputValid (i : CreateTaskInput) : Bool :=
  decide (1 ≤ i.title.length)

/-- Validation performed by `updateTaskInputSchema`: when a title is present
it must satisfy `z.string().min(1)`; all other fields are unconstrained. -/
def updateTaskInputValid (i : UpdateTaskInput) : Bool :=
  match i.title with
  | some t => decide (1 ≤ t.length)
  | none => true

/-- The JavaScript expression `input.description || null` in the createTask
handler: `undefined`, `null` and the empty string are all falsy, so each of
them collapses to null; any non-empty string is kept. -/
def descriptionOrNull : Option (Option String) → Option String
  | some (some s) => if s = "" then none else some s
  | _ => none

/-- The drizzle-backed `createTask` handler: insert one row with the given
title, `description || null`, `completed = false`, store-assigned id, and
both timestamps set to the current time by the database defaults; return the
created row. -/
def createTask (input : CreateTaskInput) (now : Nat) (s : Store) : Task × Store :=
  let task : Task :=
    { id := s.nextId
      title := input.title
      description := descriptionOrNull input.description
      completed := false
      created_at := now
      updated_at := now }
  (task, { rows := s.rows ++ [task], nextId := s.nextId + 1 })

/-- The RPC boundary for create: the input is validated against
`createTaskInputSchema` before the handler runs, so an invalid input is
rejected with the schema's message `Title is required` and never reaches the
store — the store comes back unchanged. -/
def createTaskRPC (input : CreateTaskInput) (now : Nat) (s : Store) :
    Except String Task × Store :=
  if createTaskInputValid input then
    (.ok (createTask input now s).1, (createTask input now s).2)
  else (.error "Title is required", s)

/-- The drizzle primitive `db.update(tasksTable).set(...).where(eq(tasksTable.id, i)).returning()`
used by both mutating handlers: apply the set-clause `f` to every row whose id
matches `i`, and return the list of affected rows together with the new store. -/
def dbUpdateWhere (i : Nat) (f : Task → Task) (s : Store) : List Task × Store :=
  let updated := s.rows.map fun r => if r.id = i then f r else r
  (updated.filter fun r => r.id = i, { s with rows := updated })

/-- The drizzle-backed `toggleTask` handler: update every row matching the id,
setting `completed` to the given value and `updated_at` to the current time;
if no row matched, throw `Task with id {id} not found`; otherwise return the
first returned row. -/
def toggleTask (input : ToggleTaskInput) (now : Nat) (s : Store) :
    Except String (Task × Store) :=
  let res := dbUpdateWhere input.id
    (fun r => { r with completed := input.completed, updated_at := now }) s
  match res.1 with
  | [] => .error ("Task with id " ++ toString input.id ++ " not found")
  | t :: _ => .ok (t, res.2)

/-- The `updateTask` handler present in src (`update_task.ts` lines 3-15): a
placeholder that resolves with a Task fabricated from the input —
`title || 'Placeholder title'` (the empty string is falsy),
`description !== undefined ? description : null`, `completed || false`, and
fresh `new Date()` timestamps — without reading or writing the store and
without ever raising a not-found error. -/
def updateTask (input : UpdateTaskInput) (now : Nat) (s : Store) : Task × Store :=
  ({ id := input.id
     title :=
       match input.title with
       | some t => if t = "" then "Placeholder title" else t
       | none => "Placeholder title"
     description := input.description.getD none
     completed := input.completed.getD false
     created_at := now
     updated_at := now }, s)

/-- Modelled from the spec: the repository has no `delete_task.ts` handler
in the source, only its tests. Spec §4.5: remove the row matching the id if
present; return `{ success: true }` when a row was removed and
`{ success: false }` when no row matched, never an error. -/
def deleteTask (input : DeleteTaskInput) (s : Store) : DeleteResult × Store :=
  ({ success := s.rows.any fun r => r.id = input.id },
   { s with rows := s.rows.filter fun r => r.id ≠ input.id })

/-- Listing order: `a` may precede `b` when `a` was created later, ties
broken by descending id (spec §4.2). -/
def taskBefore (a b : Task) : Bool :=
  decide (b.created_at < a.created_at ∨
    (a.created_at = b.created_at ∧ b.id ≤ a.id))

/-- Insert a task into a list already ordered by `taskBefore`. -/
def insertTask (t : Task) : List Task → List Task
  | [] => [t]
  | x :: xs => if taskBefore t x then t :: x :: xs else x :: insertTask t xs

/-- Sort a list of tasks by `taskBefore` (insertion sort). -/
def sortTasks : List Task → List Task
  | [] => []
  | x :: xs => insertTask x (sortTasks xs)

/-- Modelled from the spec: the repository has no `get_tasks.ts` handler in
the source, only its tests. Spec §4.2: retrieve all tasks ordered newest
first — descending by `created_at`, ties broken by descending id. -/
def getTasks (s : Store) : List Task := sortTasks s.rows

/-- Running a sequence of create operations, each stamped with its own
current time. -/
def runCreates : Store → List (CreateTaskInput × Nat) → Store
  | s, [] => s
  | s, (i, t) :: rest => runCreates (createTask i t s).2 rest

/-- The store invariant of spec §3: every row satisfies
`created_at ≤ updated_at`. -/
def StoreInv (s : Store) : Prop :=
  ∀ r ∈ s.rows, r.created_at ≤ r.updated_at

/-! ### Helper lemmas about the store primitives -/

lemma mem_dbUpdateWhere_rows (i : Nat) (f : Task → Task) (s : Store) (x : Task)
    (hx : x ∈ (dbUpdateWhere i f s).2.rows) :
    (∃ r ∈ s.rows, r.id = i ∧ x = f r) ∨ x ∈ s.rows := by
  simp only [dbUpdateWhere] at hx
  rcases List.mem_map.mp hx with ⟨r, hr, rfl⟩
  by_cases h : r.id = i
  · exact Or.inl ⟨r, hr, h, by rw [if_pos h]⟩
  · exact Or.inr (by rwa [if_neg h])

/-! ### Claims -/

/-- C1: toggle keeps the contract — toggling the absent id 99999 on the
empty store fails with the not-found error naming the id — but the
`updateTask` handler in src, evaluated at the exact input its own test feeds
it (id 999999, title "Should fail", empty store), resolves with a fabricated
Task instead of a not-found error: the claim is right and the placeholder
code contradicts it and its own test. -/
theorem updateTask_not_found_code_bug :
    toggleTask ⟨99999, true⟩ 0 Store.empty
      = .error ("Task with id " ++ toString 99999 ++ " not found") ∧
    updateTask ⟨999999, some "Should fail", none, none⟩ 0 Store.empty
      = ({ id := 999999, title := "Should fail", description := none,
           completed := false, created_at := 0, updated_at := 0 },
         Store.empty) :=
  ⟨rfl, rfl⟩

/-- C2: refuted by the code — `updateTask {id, completed := c}` is nothing
like `toggleTask {id, c}`: at id 5 on the empty store the drizzle toggle
fails with the not-found error, while the placeholder update succeeds with a
fabricated Task titled "Placeholder title" and an untouched store. -/
theorem toggle_update_not_equivalent :
    toggleTask ⟨5, true⟩ 0 Store.empty
      = .error ("Task with id " ++ toString 5 ++ " not found") ∧
    updateTask ⟨5, none, none, some true⟩ 0 Store.empty
      = ({ id := 5, title := "Placeholder title", description := none,
           completed := true, created_at := 0, updated_at := 0 },
         Store.empty) :=
  ⟨rfl, rfl⟩

/-- C6: for every valid create input, the returned task has
`completed = false`, the store-assigned id, and `created_at = updated_at`. -/
theorem createTask_initial_fields (input : CreateTaskInput) (now : Nat) (s : Store)
    (_hv : createTaskInputValid input = true) :
    (createTask input now s).1.completed = false ∧
    (createTask input now s).1.id = s.nextId ∧
    (createTask input now s).1.created_at = (createTask input now s).1.updated_at :=
  ⟨rfl, rfl, rfl⟩

/-- C6 witness: creating "Buy milk" in the empty store yields an incomplete
task with id 0 and equal timestamps. -/
theorem createTask_initial_fields_witness :
    (createTask ⟨"Buy milk", none⟩ 7 Store.empty).1.completed = false ∧
    (createTask ⟨"Buy milk", none⟩ 7 Store.empty).1.id = Store.empty.nextId ∧
    (createTask ⟨"Buy milk", none⟩ 7 Store.empty).1.created_at
      = (createTask ⟨"Buy milk", none⟩ 7 Store.empty).1.updated_at :=
  createTask_initial_fields ⟨"Buy milk", none⟩ 7 Store.empty (by decide)

/-- C9: a create input with an empty title is rejected by the schema with the
validation message before any store operation, and the store is unchanged. -/
theorem create_empty_title_rejected (input : CreateTaskInput) (now : Nat) (s : Store)
    (h : input.title = "") :
    createTaskRPC input now s = (.error "Title is required", s) := by
  simp [createTaskRPC, createTaskInputValid, h]

/-- C9 witness: the empty-title request on a one-task store is rejected and
leaves the store as it was. -/
theorem create_empty_title_rejected_witness :
    createTaskRPC ⟨"", none⟩ 9 (createTask ⟨"a", none⟩ 1 Store.empty).2
      = (.error "Title is required", (createTask ⟨"a", none⟩ 1 Store.empty).2) :=
  create_empty_title_rejected ⟨"", none⟩ 9 (createTask ⟨"a", none⟩ 1 Store.empty).2 rfl

/-- C10: `createTask` coerces an empty-string description (accepted by the
schema exactly as an omitted one is) to null: the result — returned task and
stored rows alike — is identical to creating with an omitted or an explicitly
null description, and the stored row is the returned task with a null
description. -/
theorem create_empty_description_null (title : String) (now : Nat) (s : Store) :
    createTask ⟨title, some (some "")⟩ now s = createTask ⟨title, none⟩ now s ∧
    createTask ⟨title, some (some "")⟩ now s = createTask ⟨title, some none⟩ now s ∧
    (createTask ⟨title, some (some "")⟩ now s).1.description = none ∧
    (createTask ⟨title, some (some "")⟩ now s).2.rows
      = s.rows ++ [(createTask ⟨title, some (some "")⟩ now s).1] ∧
    createTaskInputValid ⟨title, some (some "")⟩ = createTaskInputValid ⟨title, none⟩ :=
  ⟨rfl, rfl, rfl, rfl, rfl⟩

/-- C7: `deleteTask` returns `success = true` exactly when a row with the id
existed (and the result store no longer contains it); `success = false` is a
normal result — the operation is total, never an error — with the store left
unchanged; repeating the delete yields `success = false` and changes
nothing. -/
theorem deleteTask_contract (input : DeleteTaskInput) (s : Store) :
    ((deleteTask input s).1.success = true ↔ ∃ r ∈ s.rows, r.id = input.id) ∧
    (∀ r ∈ (deleteTask input s).2.rows, r.id ≠ input.id) ∧
    ((deleteTask input s).1.success = false → (deleteTask input s).2 = s) ∧
    (deleteTask input (deleteTask input s).2).1.success = false ∧
    (deleteTask input (deleteTask input s).2).2 = (deleteTask input s).2 := by
  obtain ⟨rows, nextId⟩ := s
  refine ⟨?_, ?_, ?_, ?_, ?_⟩
  · simp [deleteTask]
  · intro r hr
    simp only [deleteTask] at hr
    exact of_decide_eq_true (List.mem_filter.mp hr).2
  · intro hfalse
    simp only [deleteTask] at hfalse ⊢
    have : ∀ r ∈ rows, r.id ≠ input.id := by
      intro r hr
      have := List.any_eq_false.mp hfalse r hr
      simpa using this
    simp only [Store.mk.injEq, and_true]
    rw [List.filter_eq_self]
    intro a ha
    simpa using this a ha
  · simp only [deleteTask, List.any_eq_false]
    intro r hr
    have := (List.mem_filter.mp hr).2
    simpa using of_decide_eq_true this
  · simp only [deleteTask, Store.mk.injEq, and_true]
    rw [List.filter_filter]
    apply List.filter_congr
    intro a _
    simp

/-- C7 witness: deleting id 0 from a one-task store succeeds, empties the
store, and a second delete of the same id reports `success = false` without
changing anything. -/
theorem deleteTask_contract_witness :
    ((deleteTask ⟨0⟩ (createTask ⟨"a", none⟩ 1 Store.empty).2).1.success = true ↔
      ∃ r ∈ (createTask ⟨"a", none⟩ 1 Store.empty).2.rows, r.id = (0 : Nat)) ∧
    (∀ r ∈ (deleteTask ⟨0⟩ (createTask ⟨"a", none⟩ 1 Store.empty).2).2.rows,
      r.id ≠ (0 : Nat)) ∧
    ((deleteTask ⟨0⟩ (createTask ⟨"a", none⟩ 1 Store.empty).2).1.success = false →
      (deleteTask ⟨0⟩ (createTask ⟨"a", none⟩ 1 Store.empty).2).2
        = (createTask ⟨"a", none⟩ 1 Store.empty).2) ∧
    (deleteTask ⟨0⟩ (deleteTask ⟨0⟩ (createTask ⟨"a", none⟩ 1 Store.empty).2).2).1.success
      = false ∧
    (deleteTask ⟨0⟩ (deleteTask ⟨0⟩ (createTask ⟨"a", none⟩ 1 Store.empty).2).2).2
      = (deleteTask ⟨0⟩ (createTask ⟨"a", none⟩ 1 Store.empty).2).2 :=
  deleteTask_contract ⟨0⟩ (createTask ⟨"a", none⟩ 1 Store.empty).2

/-- C3: refuted by the code — on the store holding the row
{id 0, title "Original Task", description "Original description",
created_at 1} (exactly the setup of the handler's own tests), the update
touching only `description` returns a Task whose omitted title has become
"Placeholder title" and whose `created_at` is the fresh current time 9
instead of the row's 1, and the merged row never reaches the store: the
frame property is right as intent (the handler's tests assert it) and the
placeholder code contradicts it. -/
theorem updateTask_frame_code_bug :
    (updateTask ⟨0, none, some (some "Updated description"), none⟩ 9
        (createTask ⟨"Original Task", some (some "Original description")⟩ 1
          Store.empty).2).1
      = { id := 0, title := "Placeholder title",
          description := some "Updated description", completed := false,
          created_at := 9, updated_at := 9 } ∧
    (createTask ⟨"Original Task", some (some "Original description")⟩ 1
        Store.empty).1.title = "Original Task" ∧
    (createTask ⟨"Original Task", some (some "Original description")⟩ 1
        Store.empty).1.created_at = 1 ∧
    (updateTask ⟨0, none, some (some "Updated description"), none⟩ 9
        (createTask ⟨"Original Task", some (some "Original description")⟩ 1
          Store.empty).2).2
      = (createTask ⟨"Original Task", some (some "Original description")⟩ 1
          Store.empty).2 :=
  ⟨rfl, rfl, rfl, rfl⟩

/-- C4: the id-only input does pass the schema validation, but the handler
in src, evaluated at `{id := 0}` on the store holding the row
{id 0, title "Original Task", ...}, fabricates
{title "Placeholder title", completed false, created_at 9} instead of the
unchanged row: the claim is right as intent (the handler's own test at
update_task.test.ts:187-208 asserts it) and the placeholder code
contradicts it. -/
theorem updateTask_id_only_code_bug :
    updateTaskInputValid ⟨0, none, none, none⟩ = true ∧
    (updateTask ⟨0, none, none, none⟩ 9
        (createTask ⟨"Original Task", some (some "Original description")⟩ 1
          Store.empty).2).1
      = { id := 0, title := "Placeholder title", description := none,
          completed := false, created_at := 9, updated_at := 9 } ∧
    (createTask ⟨"Original Task", some (some "Original description")⟩ 1
        Store.empty).1.title = "Original Task" :=
  ⟨rfl, rfl, rfl⟩

lemma storeInv_dbUpdateWhere (i : Nat) (f : Task → Task) (s : Store)
    (hinv : StoreInv s)
    (hf : ∀ r ∈ s.rows, (f r).created_at ≤ (f r).updated_at) :
    StoreInv (dbUpdateWhere i f s).2 := by
  intro x hx
  rcases mem_dbUpdateWhere_rows i f s x hx with ⟨r, hr, _, rfl⟩ | hx'
  · exact hf r hr
  · exact hinv x hx'

lemma dbUpdateWhere_fst_subset (i : Nat) (f : Task → Task) (s : Store) :
    ∀ x ∈ (dbUpdateWhere i f s).1, x ∈ (dbUpdateWhere i f s).2.rows := by
  intro x hx
  simp only [dbUpdateWhere] at hx ⊢
  exact (List.mem_filter.mp hx).1

lemma insertTask_perm (t : Task) (l : List Task) : (insertTask t l).Perm (t :: l) := by
  induction l with
  | nil => exact List.Perm.refl _
  | cons x xs ih =>
    simp only [insertTask]
    by_cases h : taskBefore t x = true
    · rw [if_pos h]
    · rw [if_neg h]
      exact (ih.cons x).trans (List.Perm.swap t x xs)

lemma mem_insertTask {x t : Task} {l : List Task} (h : x ∈ insertTask t l) :
    x = t ∨ x ∈ l := by
  simpa using (insertTask_perm t l).mem_iff.mp h

lemma sortTasks_perm (l : List Task) : (sortTasks l).Perm l := by
  induction l with
  | nil => exact List.Perm.refl _
  | cons x xs ih =>
    simp only [sortTasks]
    exact (insertTask_perm x (sortTasks xs)).trans (ih.cons x)

/-- C5: every task observable from any operation satisfies
`created_at ≤ updated_at`, and — given a clock that has not run backwards
past any row's creation time — every operation preserves the invariant on
the stored state; the placeholder update handler returns a task with both
timestamps freshly equal and leaves the store untouched, so it too upholds
the invariant. -/
theorem updated_at_ge_created_at (ci : CreateTaskInput) (ti : ToggleTaskInput)
    (ui : UpdateTaskInput) (di : DeleteTaskInput) (now : Nat) (s : Store)
    (hinv : StoreInv s) (hclock : ∀ r ∈ s.rows, r.created_at ≤ now) :
    ((createTask ci now s).1.created_at ≤ (createTask ci now s).1.updated_at ∧
      StoreInv (createTask ci now s).2) ∧
    (∀ t s', toggleTask ti now s = .ok (t, s') →
      t.created_at ≤ t.updated_at ∧ StoreInv s') ∧
    ((updateTask ui now s).1.created_at ≤ (updateTask ui now s).1.updated_at ∧
      StoreInv (updateTask ui now s).2) ∧
    StoreInv (deleteTask di s).2 ∧
    (∀ t ∈ getTasks s, t.created_at ≤ t.updated_at) := by
  refine ⟨⟨le_refl _, ?_⟩, ?_, ⟨le_refl _, hinv⟩, ?_, ?_⟩
  · intro r hr
    simp only [createTask] at hr
    rcases List.mem_append.mp hr with hr' | hr'
    · exact hinv r hr'
    · simp only [List.mem_singleton] at hr'
      subst hr'
      exact le_refl _
  · intro t s' h
    have hinv' : StoreInv (dbUpdateWhere ti.id
        (fun r => { r with completed := ti.completed, updated_at := now }) s).2 :=
      storeInv_dbUpdateWhere _ _ _ hinv (fun r hr => hclock r hr)
    simp only [toggleTask] at h
    rcases hcase : (dbUpdateWhere ti.id
        (fun r => { r with completed := ti.completed, updated_at := now }) s).1
      with _ | ⟨t0, rest⟩
    · rw [hcase] at h
      exact absurd h (by simp)
    · rw [hcase] at h
      simp only [Except.ok.injEq, Prod.mk.injEq] at h
      obtain ⟨rfl, rfl⟩ := h
      have ht0 : t0 ∈ (dbUpdateWhere ti.id
          (fun r => { r with completed := ti.completed, updated_at := now }) s).1 := by
        rw [hcase]; exact List.mem_cons_self _ _
      exact ⟨hinv' t0 (dbUpdateWhere_fst_subset _ _ _ t0 ht0), hinv'⟩
  · intro r hr
    simp only [deleteTask] at hr
    exact hinv r (List.mem_filter.mp hr).1
  · intro t ht
    exact hinv t ((sortTasks_perm s.rows).mem_iff.mp ht)

/-- C5 witness: on a freshly created one-task store at time 1 with the clock
at 5, every operation preserves the timestamp invariant and every observable
task satisfies it. -/
theorem updated_at_ge_created_at_witness :
    (((createTask ⟨"b", none⟩ 5 (createTask ⟨"a", none⟩ 1 Store.empty).2).1.created_at ≤
        (createTask ⟨"b", none⟩ 5 (createTask ⟨"a", none⟩ 1 Store.empty).2).1.updated_at ∧
      StoreInv (createTask ⟨"b", none⟩ 5 (createTask ⟨"a", none⟩ 1 Store.empty).2).2) ∧
    (∀ t s', toggleTask ⟨0, true⟩ 5 (createTask ⟨"a", none⟩ 1 Store.empty).2 = .ok (t, s') →
      t.created_at ≤ t.updated_at ∧ StoreInv s') ∧
    ((updateTask ⟨0, none, none, none⟩ 5
          (createTask ⟨"a", none⟩ 1 Store.empty).2).1.created_at ≤
        (updateTask ⟨0, none, none, none⟩ 5
          (createTask ⟨"a", none⟩ 1 Store.empty).2).1.updated_at ∧
      StoreInv (updateTask ⟨0, none, none, none⟩ 5
          (createTask ⟨"a", none⟩ 1 Store.empty).2).2) ∧
    StoreInv (deleteTask ⟨0⟩ (createTask ⟨"a", none⟩ 1 Store.empty).2).2 ∧
    (∀ t ∈ getTasks (createTask ⟨"a", none⟩ 1 Store.empty).2,
      t.created_at ≤ t.updated_at)) :=
  updated_at_ge_created_at ⟨"b", none⟩ ⟨0, true⟩ ⟨0, none, none, none⟩ ⟨0⟩ 5
    (createTask ⟨"a", none⟩ 1 Store.empty).2
    (by intro r hr; simp [createTask, Store.empty] at hr; subst hr; simp)
    (by intro r hr; simp [createTask, Store.empty] at hr; subst hr; simp)

/-! ### Ordering of the list operation -/

lemma taskBefore_total (a b : Task) (h : taskBefore a b = false) :
    taskBefore b a = true := by
  simp only [taskBefore, decide_eq_false_iff_not] at h
  simp only [taskBefore, decide_eq_true_eq]
  omega

lemma taskBefore_trans (a b c : Task) (hab : taskBefore a b = true)
    (hbc : taskBefore b c = true) : taskBefore a c = true := by
  simp only [taskBefore, decide_eq_true_eq] at hab hbc ⊢
  omega

lemma taskBefore_le (a b : Task) (h : taskBefore a b = true) :
    b.created_at ≤ a.created_at := by
  simp only [taskBefore, decide_eq_true_eq] at h
  omega

lemma pairwise_insertTask (t : Task) (l : List Task)
    (hl : l.Pairwise fun a b => taskBefore a b = true) :
    (insertTask t l).Pairwise fun a b => taskBefore a b = true := by
  induction l with
  | nil => simp [insertTask]
  | cons x xs ih =>
    rcases List.pairwise_cons.mp hl with ⟨hx, hxs⟩
    simp only [insertTask]
    by_cases h : taskBefore t x = true
    · rw [if_pos h]
      refine List.pairwise_cons.mpr ⟨?_, hl⟩
      intro y hy
      rcases List.mem_cons.mp hy with rfl | hy'
      · exact h
      · exact taskBefore_trans t x y h (hx y hy')
    · rw [if_neg h]
      refine List.pairwise_cons.mpr ⟨?_, ih hxs⟩
      intro y hy
      rcases mem_insertTask hy with rfl | hy'
      · exact taskBefore_total y x (Bool.not_eq_true _ ▸ h)
      · exact hx y hy'

lemma pairwise_sortTasks (l : List Task) :
    (sortTasks l).Pairwise fun a b => taskBefore a b = true := by
  induction l with
  | nil => simp [sortTasks]
  | cons x xs ih =>
    simp only [sortTasks]
    exact pairwise_insertTask x (sortTasks xs) ih

/-- Strict ordering of insertion keys: created strictly earlier, or at the
same instant with a strictly smaller store-assigned id. -/
def keyLt (a b : Task) : Prop :=
  a.created_at < b.created_at ∨ (a.created_at = b.created_at ∧ a.id < b.id)

lemma taskBefore_eq_false_of_keyLt {a b : Task} (h : keyLt a b) :
    taskBefore a b = false := by
  simp only [keyLt] at h
  simp only [taskBefore, decide_eq_false_iff_not]
  omega

lemma insertTask_append_of_all (t : Task) (l : List Task)
    (h : ∀ x ∈ l, taskBefore t x = false) :
    insertTask t l = l ++ [t] := by
  induction l with
  | nil => rfl
  | cons x xs ih =>
    simp only [insertTask]
    rw [if_neg (by simp [h x (List.mem_cons_self x xs)])]
    rw [ih (fun y hy => h y (List.mem_cons_of_mem x hy))]
    simp

lemma sortTasks_of_pairwise_keyLt (l : List Task) (h : l.Pairwise keyLt) :
    sortTasks l = l.reverse := by
  induction l with
  | nil => rfl
  | cons x xs ih =>
    rcases List.pairwise_cons.mp h with ⟨hx, hxs⟩
    simp only [sortTasks]
    rw [ih hxs, insertTask_append_of_all, List.reverse_cons]
    intro y hy
    exact taskBefore_eq_false_of_keyLt (hx y (List.mem_reverse.mp hy))

lemma runCreates_rows_pairwise (l : List (CreateTaskInput × Nat)) :
    ∀ s : Store, s.rows.Pairwise keyLt →
      (∀ r ∈ s.rows, r.id < s.nextId) →
      (∀ r ∈ s.rows, ∀ p ∈ l, r.created_at ≤ p.2) →
      (l.map Prod.snd).Pairwise (· ≤ ·) →
      (runCreates s l).rows.Pairwise keyLt := by
  induction l with
  | nil =>
    intro s h1 _ _ _
    exact h1
  | cons p rest ih =>
    obtain ⟨i, tm⟩ := p
    intro s h1 h2 h3 h4
    simp only [List.map_cons, List.pairwise_cons] at h4
    obtain ⟨h4head, h4rest⟩ := h4
    simp only [runCreates]
    apply ih
    · simp only [createTask]
      rw [List.pairwise_append]
      refine ⟨h1, List.pairwise_singleton _ _, ?_⟩
      intro a ha b hb
      simp only [List.mem_singleton] at hb
      subst hb
      have hle : a.created_at ≤ tm := h3 a ha (i, tm) (List.mem_cons_self _ _)
      have hid : a.id < s.nextId := h2 a ha
      simp only [keyLt, createTask]
      omega
    · intro r hr
      simp only [createTask] at hr ⊢
      rcases List.mem_append.mp hr with hr' | hr'
      · exact Nat.lt_succ_of_lt (h2 r hr')
      · simp only [List.mem_singleton] at hr'
        subst hr'
        exact Nat.lt_succ_self _
    · intro r hr q hq
      simp only [createTask] at hr
      rcases List.mem_append.mp hr with hr' | hr'
      · exact h3 r hr' q (List.mem_cons_of_mem _ hq)
      · simp only [List.mem_singleton] at hr'
        subst hr'
        exact h4head q.2 (List.mem_map_of_mem Prod.snd hq)
    · exact h4rest

/-- C8: `getTasks` returns exactly the stored tasks, ordered by descending
`created_at` (newest first); and after creating a sequence of tasks with a
non-decreasing clock starting from the empty store, listing yields them in
reverse insertion order. -/
theorem getTasks_ordering (s : Store) (l : List (CreateTaskInput × Nat))
    (hchron : (l.map Prod.snd).Pairwise (· ≤ ·)) :
    ((getTasks s).Perm s.rows ∧
      (getTasks s).Pairwise (fun a b => b.created_at ≤ a.created_at)) ∧
    getTasks (runCreates Store.empty l) = (runCreates Store.empty l).rows.reverse := by
  refine ⟨⟨sortTasks_perm s.rows, ?_⟩, ?_⟩
  · exact (pairwise_sortTasks s.rows).imp fun h => taskBefore_le _ _ h
  · apply sortTasks_of_pairwise_keyLt
    apply runCreates_rows_pairwise l Store.empty
    · simp [Store.empty]
    · simp [Store.empty]
    · simp [Store.empty]
    · exact hchron

/-- C8 witness: creating three tasks at times 2, 3, 3 on top of a store
holding one task lists the stored rows newest first, and from the empty
store the listing is exactly the reverse of the insertion order. -/
theorem getTasks_ordering_witness :
    ((getTasks (createTask ⟨"a", none⟩ 1 Store.empty).2).Perm
        (createTask ⟨"a", none⟩ 1 Store.empty).2.rows ∧
      (getTasks (createTask ⟨"a", none⟩ 1 Store.empty).2).Pairwise
        (fun a b => b.created_at ≤ a.created_at)) ∧
    getTasks (runCreates Store.empty
        [(⟨"b", none⟩, 2), (⟨"c", none⟩, 3), (⟨"d", none⟩, 3)])
      = (runCreates Store.empty
          [(⟨"b", none⟩, 2), (⟨"c", none⟩, 3), (⟨"d", none⟩, 3)]).rows.reverse :=
  getTasks_ordering (createTask ⟨"a", none⟩ 1 Store.empty).2
    [(⟨"b", none⟩, 2), (⟨"c", none⟩, 3), (⟨"d", none⟩, 3)]
    (by simp [List.pairwise_cons])

end Todo
